import Mathlib

/-!
Verification of the semantic product-search subsystem of the yinni_backend
repository: vector math (cosine similarity), the in-memory similarity
rankers (service layer and data layer), the RAG rerank orchestrator, and
the batch embedding job.  Go floats are modelled as real numbers, Go ints
as integers; fallible calls are modelled by explicit result oracles.
-/

open Classical

/-- Product record (biz.Product), restricted to the fields the search core
reads: identity, PID, price and the embedding vector. -/
structure Product where
  ID : ℤ
  PID : String
  Title : String
  PriceNumeric : ℤ
  Embedding : List ℝ

/-- Price filter bounds (biz.PriceRange / service.PriceRange). -/
structure PriceRange where
  Min : ℤ
  Max : ℤ

/-- Running dot product accumulated by the loop in cosineSimilarity. -/
noncomputable def dotList (a b : List ℝ) : ℝ :=
  (List.zipWith (fun x y => x * y) a b).sum

/-- Running sum of squares (the variables normA / normB in the source). -/
noncomputable def sumSq (a : List ℝ) : ℝ :=
  (a.map (fun x => x * x)).sum

/-- Euclidean norm of a vector, as the spec speaks of norms; the source
compares the squared quantity with zero, which is equivalent. -/
noncomputable def euclidNorm (a : List ℝ) : ℝ :=
  Real.sqrt (sumSq a)

/-- cosineSimilarity from product.go (identical to biz.CosineSimilarity):
returns 0 on length mismatch or empty input, 0 when either squared norm is
zero, and otherwise the dot product over the product of square roots. -/
noncomputable def cosineSimilarity (a b : List ℝ) : ℝ :=
  if a.length ≠ b.length ∨ a.length = 0 then 0
  else if sumSq a = 0 ∨ sumSq b = 0 then 0
  else dotList a b / (Real.sqrt (sumSq a) * Real.sqrt (sumSq b))

lemma sumSq_nonneg (a : List ℝ) : 0 ≤ sumSq a := by
  apply List.sum_nonneg
  intro x hx
  obtain ⟨y, _, rfl⟩ := List.mem_map.mp hx
  exact mul_self_nonneg y

lemma dotList_eq_range_sum :
    ∀ (a b : List ℝ), a.length = b.length →
      dotList a b = ∑ i in Finset.range a.length, a.getD i 0 * b.getD i 0 := by
  intro a
  induction a with
  | nil => intro b h; simp [dotList]
  | cons x xs ih =>
    intro b h
    cases b with
    | nil => simp at h
    | cons y ys =>
      have hlen : xs.length = ys.length := by simpa using h
      have hsum := Finset.sum_range_succ'
        (fun i => (x :: xs).getD i 0 * (y :: ys).getD i 0) xs.length
      simp only [List.length_cons]
      rw [hsum]
      simp only [List.getD_cons_succ, List.getD_cons_zero]
      rw [← ih ys hlen]
      simp [dotList, add_comm]

lemma sumSq_eq_range_sum (a : List ℝ) :
    sumSq a = ∑ i in Finset.range a.length, a.getD i 0 * a.getD i 0 := by
  induction a with
  | nil => simp [sumSq]
  | cons x xs ih =>
    have hsum := Finset.sum_range_succ'
      (fun i => (x :: xs).getD i 0 * (x :: xs).getD i 0) xs.length
    simp only [List.length_cons]
    rw [hsum]
    simp only [List.getD_cons_succ, List.getD_cons_zero]
    rw [← ih]
    simp [sumSq, add_comm]

/-- Cauchy-Schwarz for the list dot product. -/
lemma dotList_sq_le (a b : List ℝ) (h : a.length = b.length) :
    dotList a b ^ 2 ≤ sumSq a * sumSq b := by
  rw [dotList_eq_range_sum a b h, sumSq_eq_range_sum a, sumSq_eq_range_sum b, h]
  have hcs := Finset.sum_mul_sq_le_sq_mul_sq (Finset.range b.length)
    (fun i => a.getD i 0) (fun i => b.getD i 0)
  calc (∑ i in Finset.range b.length, a.getD i 0 * b.getD i 0) ^ 2
      ≤ (∑ i in Finset.range b.length, a.getD i 0 ^ 2) *
        ∑ i in Finset.range b.length, b.getD i 0 ^ 2 := hcs
    _ = (∑ i in Finset.range b.length, a.getD i 0 * a.getD i 0) *
        ∑ i in Finset.range b.length, b.getD i 0 * b.getD i 0 := by
        simp [pow_two]

/-- C9: for every pair of equal-length vectors, cosineSimilarity returns 0
when either vector's Euclidean norm is zero, and the result always lies in
the interval [-1, 1]. -/
theorem C9_cosine_bounds (a b : List ℝ) (h : a.length = b.length) :
    ((euclidNorm a = 0 ∨ euclidNorm b = 0) → cosineSimilarity a b = 0) ∧
    -1 ≤ cosineSimilarity a b ∧ cosineSimilarity a b ≤ 1 := by
  have hz0 : ∀ c : List ℝ, euclidNorm c = 0 → sumSq c = 0 := fun c hc =>
    le_antisymm (Real.sqrt_eq_zero'.mp hc) (sumSq_nonneg c)
  by_cases h1 : a.length ≠ b.length ∨ a.length = 0
  · unfold cosineSimilarity
    rw [if_pos h1]
    exact ⟨fun _ => rfl, by norm_num, by norm_num⟩
  · by_cases h2 : sumSq a = 0 ∨ sumSq b = 0
    · unfold cosineSimilarity
      rw [if_neg h1, if_pos h2]
      exact ⟨fun _ => rfl, by norm_num, by norm_num⟩
    · have h2' : ¬(sumSq a = 0) ∧ ¬(sumSq b = 0) := not_or.mp h2
      have hA : 0 < sumSq a := lt_of_le_of_ne (sumSq_nonneg a) (Ne.symm h2'.1)
      have hB : 0 < sumSq b := lt_of_le_of_ne (sumSq_nonneg b) (Ne.symm h2'.2)
      have hsA : 0 < Real.sqrt (sumSq a) := Real.sqrt_pos.mpr hA
      have hsB : 0 < Real.sqrt (sumSq b) := Real.sqrt_pos.mpr hB
      have hden : 0 < Real.sqrt (sumSq a) * Real.sqrt (sumSq b) :=
        mul_pos hsA hsB
      have hden2 : (Real.sqrt (sumSq a) * Real.sqrt (sumSq b)) ^ 2 =
          sumSq a * sumSq b := by
        rw [mul_pow, Real.sq_sqrt (sumSq_nonneg a), Real.sq_sqrt (sumSq_nonneg b)]
      have hdot := dotList_sq_le a b h
      have habs : |dotList a b| ≤ Real.sqrt (sumSq a) * Real.sqrt (sumSq b) := by
        nlinarith [sq_abs (dotList a b), abs_nonneg (dotList a b), hden, hdot, hden2]
      rw [abs_le] at habs
      unfold cosineSimilarity
      rw [if_neg h1, if_neg h2]
      refine ⟨fun hz => (h2 (hz.imp (hz0 a) (hz0 b))).elim, ?_, ?_⟩
      · rw [le_div_iff₀ hden]
        linarith [habs.1]
      · rw [div_le_one hden]
        exact habs.2

/-- Witness for C9 at concrete vectors: [0] has zero norm, so the
similarity with [1] is 0. -/
theorem C9_witness : cosineSimilarity [0] [1] = 0 :=
  (C9_cosine_bounds [0] [1] rfl).1
    (Or.inl (by simp [euclidNorm, sumSq, Real.sqrt_eq_zero']))

/-- One iteration of the inner loop of the in-place exchange sort in
SearchSimilarProducts: the current element at position i is compared with
each later element; on `lt` the two are swapped, so the larger value is
carried forward and the smaller one is left behind at position j. -/
def exchangeInner (lt : α → α → Bool) (x : α) : List α → α × List α
  | [] => (x, [])
  | y :: ys =>
    if lt x y then
      let p := exchangeInner lt y ys
      (p.1, x :: p.2)
    else
      let p := exchangeInner lt x ys
      (p.1, y :: p.2)

/-- The outer loop of the exchange sort, fuelled by the fixed iteration
count (the loop runs exactly `length` times in the source). -/
def exchangeSortFuel (lt : α → α → Bool) : ℕ → List α → List α
  | 0, l => l
  | _ + 1, [] => []
  | fuel + 1, x :: xs =>
    let p := exchangeInner lt x xs
    p.1 :: exchangeSortFuel lt fuel p.2

/-- The double loop `for i; for j := i+1; if a[i].score < a[j].score swap`
from SearchSimilarProducts (both the service and the data layer copy). -/
def exchangeSort (lt : α → α → Bool) (l : List α) : List α :=
  exchangeSortFuel lt l.length l

/-- The comparison used by the source: scores compared with `<`. -/
noncomputable def scoreLt (s t : Product × ℝ) : Bool :=
  decide (s.2 < t.2)

/-- Price filter of the service ranker: skip when a positive Min exceeds
the price or a positive Max is below it (product.go, SearchSimilarProducts). -/
def priceSkip : Option PriceRange → ℤ → Bool
  | none, _ => false
  | some pr, price => (0 < pr.Min && price < pr.Min) || (0 < pr.Max && pr.Max < price)

/-- Whether the service ranker reaches the cosineSimilarity call for a
candidate: it only skips the price filter and empty embeddings. -/
def serviceScoresCandidate (pr : Option PriceRange) (p : Product) : Bool :=
  !priceSkip pr p.PriceNumeric && !(p.Embedding.length == 0)

/-- Whether the data-layer ranker reaches the cosineSimilarity call: it
also skips embeddings whose length differs from the query vector. -/
def repoScoresCandidate (q : List ℝ) (p : Product) : Bool :=
  !(p.Embedding.length == 0 || p.Embedding.length != q.length)

/-- Loop body of the scoring pass in the service ranker
(EmbeddingService.SearchSimilarProducts): price filter, empty-embedding
skip, cosine score, and the fixed 0.3 similarity floor. -/
noncomputable def serviceScoreStep (q : List ℝ) (pr : Option PriceRange)
    (p : Product) : Option (Product × ℝ) :=
  if priceSkip pr p.PriceNumeric then none
  else if p.Embedding.length = 0 then none
  else if cosineSimilarity p.Embedding q > 0.3 then
    some (p, cosineSimilarity p.Embedding q)
  else none

/-- The scoredProducts list accumulated by the service ranker's loop. -/
noncomputable def serviceScored (q : List ℝ) (pr : Option PriceRange)
    (products : List Product) : List (Product × ℝ) :=
  products.filterMap (serviceScoreStep q pr)

/-- Loop body of the scoring pass in the data-layer ranker
(productRepo.SearchSimilarProducts): length-mismatch skip, cosine score
and the same 0.3 floor.  Price/category filtering happens in the database
query, so the candidate list arrives pre-filtered. -/
noncomputable def repoScoreStep (q : List ℝ) (p : Product) :
    Option (Product × ℝ) :=
  if p.Embedding.length = 0 ∨ p.Embedding.length ≠ q.length then none
  else if cosineSimilarity p.Embedding q > 0.3 then
    some (p, cosineSimilarity p.Embedding q)
  else none

/-- The scoredProducts list accumulated by the data-layer ranker's loop. -/
noncomputable def repoScored (q : List ℝ) (products : List Product) :
    List (Product × ℝ) :=
  products.filterMap (repoScoreStep q)

/-- The service ranker, from scored candidates to the returned products:
exchange sort descending, then the loop `for i < min(limit, len)`. -/
noncomputable def serviceRank (q : List ℝ) (products : List Product)
    (limit : ℤ) (pr : Option PriceRange) : List Product :=
  ((exchangeSort scoreLt (serviceScored q pr products)).take
    (min limit ((exchangeSort scoreLt (serviceScored q pr products)).length : ℤ)).toNat).map
    Prod.fst

/-- The data-layer ranker's tail: `resultCount := limit` unless fewer
survivors exist; `make([]..., resultCount)` panics (None) when
resultCount is negative, exactly as the Go runtime would. -/
noncomputable def repoRank (q : List ℝ) (products : List Product)
    (limit : ℤ) : Option (List Product) :=
  if (if ((exchangeSort scoreLt (repoScored q products)).length : ℤ) < limit
      then ((exchangeSort scoreLt (repoScored q products)).length : ℤ) else limit) < 0
  then none
  else some (((exchangeSort scoreLt (repoScored q products)).take
    (if ((exchangeSort scoreLt (repoScored q products)).length : ℤ) < limit
      then ((exchangeSort scoreLt (repoScored q products)).length : ℤ) else limit).toNat).map
    Prod.fst)

/-- Error taxonomy of EmbeddingService.SearchSimilarProducts: not
configured, query-embedding transport failure, empty embedding response,
or a product-listing failure.  There is no invalid-limit error. -/
inductive SvcErr where
  | notConfigured
  | embedFailed
  | emptyEmbedding
  | listFailed
deriving DecidableEq

/-- EmbeddingService.SearchSimilarProducts with its fallible collaborators
as oracles: the embedding response carries resp.Data (a list of vectors)
and the product listing is the page returned by ListProducts. -/
noncomputable def serviceSearchSimilar (configured : Bool)
    (embedResp : Except Unit (List (List ℝ)))
    (listResp : Except Unit (List Product))
    (limit : ℤ) (pr : Option PriceRange) : Except SvcErr (List Product) :=
  if configured = false then .error .notConfigured
  else
    match embedResp with
    | .error _ => .error .embedFailed
    | .ok data =>
      match data with
      | [] => .error .emptyEmbedding
      | q :: _ =>
        match listResp with
        | .error _ => .error .listFailed
        | .ok products => .ok (serviceRank q products limit pr)

lemma exchangeInner_length (lt : α → α → Bool) (x : α) (l : List α) :
    ((exchangeInner lt x l).2).length = l.length := by
  induction l generalizing x with
  | nil => simp [exchangeInner]
  | cons y ys ih =>
    by_cases h : lt x y = true
    · simp [exchangeInner, h, ih]
    · simp [exchangeInner, h, ih]

lemma exchangeInner_perm (lt : α → α → Bool) (x : α) (l : List α) :
    (x :: l).Perm ((exchangeInner lt x l).1 :: (exchangeInner lt x l).2) := by
  induction l generalizing x with
  | nil => simp [exchangeInner]
  | cons y ys ih =>
    by_cases h : lt x y = true
    · simp only [exchangeInner, h, if_true]
      exact ((ih y).cons x).trans
        (List.Perm.swap (exchangeInner lt y ys).1 x (exchangeInner lt y ys).2)
    · simp only [exchangeInner, h, if_false]
      exact (List.Perm.swap y x ys).trans (((ih x).cons y).trans
        (List.Perm.swap (exchangeInner lt x ys).1 y (exchangeInner lt x ys).2))

lemma exchangeSortFuel_perm (lt : α → α → Bool) :
    ∀ (fuel : ℕ) (l : List α), l.Perm (exchangeSortFuel lt fuel l) := by
  intro fuel
  induction fuel with
  | zero => intro l; simp [exchangeSortFuel]
  | succ fuel ih =>
    intro l
    cases l with
    | nil => simp [exchangeSortFuel]
    | cons x xs =>
      simp only [exchangeSortFuel]
      exact (exchangeInner_perm lt x xs).trans
        ((ih (exchangeInner lt x xs).2).cons (exchangeInner lt x xs).1)

lemma exchangeSort_perm (lt : α → α → Bool) (l : List α) :
    l.Perm (exchangeSort lt l) :=
  exchangeSortFuel_perm lt l.length l

lemma exchangeSort_length (lt : α → α → Bool) (l : List α) :
    (exchangeSort lt l).length = l.length :=
  (exchangeSort_perm lt l).length_eq.symm

lemma exchangeInner_max_snd (x : Product × ℝ) (l : List (Product × ℝ)) :
    x.2 ≤ (exchangeInner scoreLt x l).1.2 ∧
    ∀ z ∈ (exchangeInner scoreLt x l).2, z.2 ≤ (exchangeInner scoreLt x l).1.2 := by
  induction l generalizing x with
  | nil => simp [exchangeInner]
  | cons y ys ih =>
    by_cases h : scoreLt x y = true
    · have hxy : x.2 < y.2 := by simpa [scoreLt] using h
      obtain ⟨h1, h2⟩ := ih y
      simp only [exchangeInner, h, if_true]
      refine ⟨le_trans (le_of_lt hxy) h1, ?_⟩
      intro z hz
      rcases List.mem_cons.mp hz with rfl | hz'
      · exact le_trans (le_of_lt hxy) h1
      · exact h2 z hz'
    · have hxy : ¬ x.2 < y.2 := by simpa [scoreLt] using h
      obtain ⟨h1, h2⟩ := ih x
      simp only [exchangeInner, h, if_false]
      refine ⟨h1, ?_⟩
      intro z hz
      rcases List.mem_cons.mp hz with rfl | hz'
      · exact le_trans (le_of_not_lt hxy) h1
      · exact h2 z hz'

lemma exchangeSortFuel_sorted_scoreLt :
    ∀ (fuel : ℕ) (l : List (Product × ℝ)), l.length ≤ fuel →
      List.Sorted (fun s t : Product × ℝ => t.2 ≤ s.2)
        (exchangeSortFuel scoreLt fuel l) := by
  intro fuel
  induction fuel with
  | zero =>
    intro l hl
    have hnil : l = [] := List.eq_nil_of_length_eq_zero (Nat.le_zero.mp hl)
    simp [hnil, exchangeSortFuel]
  | succ fuel ih =>
    intro l hl
    cases l with
    | nil => simp [exchangeSortFuel]
    | cons x xs =>
      simp only [exchangeSortFuel]
      rw [List.sorted_cons]
      constructor
      · intro b hb
        have hperm := exchangeSortFuel_perm scoreLt fuel (exchangeInner scoreLt x xs).2
        have hb' : b ∈ (exchangeInner scoreLt x xs).2 := hperm.mem_iff.mpr hb
        exact (exchangeInner_max_snd x xs).2 b hb'
      · apply ih
        rw [exchangeInner_length]
        simpa using hl

lemma exchangeSort_sorted_scoreLt (l : List (Product × ℝ)) :
    List.Sorted (fun s t : Product × ℝ => t.2 ≤ s.2) (exchangeSort scoreLt l) :=
  exchangeSortFuel_sorted_scoreLt l.length l le_rfl

lemma cosineSimilarity_guard (a b : List ℝ)
    (h : a.length ≠ b.length ∨ a.length = 0) : cosineSimilarity a b = 0 := by
  unfold cosineSimilarity
  rw [if_pos h]

lemma serviceScored_mem (q : List ℝ) (pr : Option PriceRange)
    (products : List Product) (s : Product × ℝ)
    (hs : s ∈ serviceScored q pr products) :
    s.2 = cosineSimilarity s.1.Embedding q ∧ (0.3 : ℝ) < s.2 := by
  obtain ⟨p, _, hstep⟩ := List.mem_filterMap.mp hs
  unfold serviceScoreStep at hstep
  split_ifs at hstep with h1 h2 h3
  injection hstep with h4
  subst h4
  exact ⟨rfl, h3⟩

lemma repoScored_mem (q : List ℝ) (products : List Product) (s : Product × ℝ)
    (hs : s ∈ repoScored q products) :
    s.2 = cosineSimilarity s.1.Embedding q ∧ (0.3 : ℝ) < s.2 := by
  obtain ⟨p, _, hstep⟩ := List.mem_filterMap.mp hs
  unfold repoScoreStep at hstep
  split_ifs at hstep with h1 h2
  injection hstep with h4
  subst h4
  exact ⟨rfl, h2⟩

/-- C1 (amended): the ranker's output is the survivors (score > 0.3)
sorted by score descending and truncated to min(limit, survivors); the
order is deterministic, but the exchange sort is NOT stable, so two
returned products with equal scores may appear in an order different from
the candidate discovery order. -/
theorem C1_amended (q : List ℝ) (products : List Product) (limit : ℤ)
    (pr : Option PriceRange) :
    (serviceScored q pr products).Perm
      (exchangeSort scoreLt (serviceScored q pr products)) ∧
    List.Sorted (fun s t : Product × ℝ => t.2 ≤ s.2)
      (exchangeSort scoreLt (serviceScored q pr products)) ∧
    serviceRank q products limit pr =
      ((exchangeSort scoreLt (serviceScored q pr products)).take
        (min limit ((exchangeSort scoreLt (serviceScored q pr products)).length : ℤ)).toNat).map
        Prod.fst :=
  ⟨exchangeSort_perm _ _, exchangeSort_sorted_scoreLt _, rfl⟩

lemma serviceRank_mem (q : List ℝ) (products : List Product) (limit : ℤ)
    (pr : Option PriceRange) (p : Product)
    (hp : p ∈ serviceRank q products limit pr) :
    ∃ s ∈ serviceScored q pr products, s.1 = p := by
  unfold serviceRank at hp
  obtain ⟨s, hs, rfl⟩ := List.mem_map.mp hp
  exact ⟨s, ((exchangeSort_perm scoreLt _).mem_iff).mpr (List.take_subset _ _ hs), rfl⟩

lemma repoRank_pos_eq (q : List ℝ) (products : List Product) (limit : ℤ)
    (hpos : 0 < limit) :
    repoRank q products limit =
      some (((exchangeSort scoreLt (repoScored q products)).take
        (min limit ((exchangeSort scoreLt (repoScored q products)).length : ℤ)).toNat).map
        Prod.fst) := by
  unfold repoRank
  have hn0 : (0:ℤ) ≤ ((exchangeSort scoreLt (repoScored q products)).length : ℤ) :=
    Int.natCast_nonneg _
  by_cases h : ((exchangeSort scoreLt (repoScored q products)).length : ℤ) < limit
  · have hmin : min limit ((exchangeSort scoreLt (repoScored q products)).length : ℤ) =
        ((exchangeSort scoreLt (repoScored q products)).length : ℤ) :=
      min_eq_right (le_of_lt h)
    simp only [h, if_true, hmin]
    rw [if_neg (not_lt.mpr hn0)]
  · have hmin : min limit ((exchangeSort scoreLt (repoScored q products)).length : ℤ) =
        limit := min_eq_left (not_lt.mp h)
    simp only [h, if_false, hmin]
    rw [if_neg (not_lt.mpr (le_of_lt hpos))]

/-- C4: every product returned by the similarity rankers has cosine score
strictly above the 0.3 floor, and the result size is bounded both by the
limit and by the survivor count; proved for the service ranker and for the
data-layer ranker. -/
theorem C4_rank_floor_and_bounds (q : List ℝ) (products : List Product)
    (limit : ℤ) (pr : Option PriceRange) (hpos : 0 < limit) :
    (∀ p ∈ serviceRank q products limit pr,
        (0.3 : ℝ) < cosineSimilarity p.Embedding q) ∧
    (serviceRank q products limit pr).length ≤ limit.toNat ∧
    (serviceRank q products limit pr).length ≤ (serviceScored q pr products).length ∧
    ∀ res, repoRank q products limit = some res →
      (∀ p ∈ res, (0.3 : ℝ) < cosineSimilarity p.Embedding q) ∧
      res.length ≤ limit.toNat ∧ res.length ≤ (repoScored q products).length := by
  refine ⟨?_, ?_, ?_, ?_⟩
  · intro p hp
    obtain ⟨s, hs, rfl⟩ := serviceRank_mem q products limit pr p hp
    obtain ⟨he, hgt⟩ := serviceScored_mem q pr products s hs
    exact he ▸ hgt
  · unfold serviceRank
    rw [List.length_map, List.length_take]
    exact le_trans (min_le_left _ _) (Int.toNat_le_toNat (min_le_left _ _))
  · unfold serviceRank
    rw [List.length_map, List.length_take]
    exact le_trans (min_le_right _ _) (le_of_eq (exchangeSort_length _ _))
  · intro res hres
    rw [repoRank_pos_eq q products limit hpos] at hres
    injection hres with hres
    subst hres
    refine ⟨?_, ?_, ?_⟩
    · intro p hp
      obtain ⟨s, hs, rfl⟩ := List.mem_map.mp hp
      have hs' : s ∈ repoScored q products :=
        ((exchangeSort_perm scoreLt _).mem_iff).mpr (List.take_subset _ _ hs)
      obtain ⟨he, hgt⟩ := repoScored_mem q products s hs'
      exact he ▸ hgt
    · rw [List.length_map, List.length_take]
      exact le_trans (min_le_left _ _) (Int.toNat_le_toNat (min_le_left _ _))
    · rw [List.length_map, List.length_take]
      exact le_trans (min_le_right _ _) (le_of_eq (exchangeSort_length _ _))

/-- C5 (amended): a product with an absent/empty embedding, or one whose
length differs from the query vector, can never appear in a ranker's
result.  The data-layer ranker excludes such products before scoring; the
service ranker, however, does score mismatched-length embeddings (cosine
returns 0 for them) and the 0.3 floor then removes them. -/
theorem C5_amended (q : List ℝ) (products : List Product) (limit : ℤ)
    (pr : Option PriceRange) :
    (∀ p ∈ serviceRank q products limit pr,
      p.Embedding ≠ [] ∧ p.Embedding.length = q.length) ∧
    ∀ p : Product, repoScoresCandidate q p = true →
      p.Embedding ≠ [] ∧ p.Embedding.length = q.length := by
  constructor
  · intro p hp
    obtain ⟨s, hs, rfl⟩ := serviceRank_mem q products limit pr p hp
    obtain ⟨he, hgt⟩ := serviceScored_mem q pr products s hs
    by_contra hcon
    have hguard : s.1.Embedding.length ≠ q.length ∨ s.1.Embedding.length = 0 := by
      rcases not_and_or.mp hcon with h | h
      · right
        simpa using not_not.mp h
      · left
        exact h
    have hzero : cosineSimilarity s.1.Embedding q = 0 :=
      cosineSimilarity_guard _ _ hguard
    rw [he, hzero] at hgt
    norm_num at hgt
  · intro p hp
    simp only [repoScoresCandidate, Bool.not_eq_true', Bool.or_eq_false_iff,
      beq_eq_false_iff_ne, bne_eq_false_iff_eq] at hp
    exact ⟨fun hnil => hp.1 (by simp [hnil]), hp.2⟩

/-- Candidate discovered first, embedding [3/5, 4/5], score 3/5. -/
noncomputable def cTie1 : Product := ⟨1, "p1", "t1", 10, [3/5, 4/5]⟩

/-- Candidate discovered second, same embedding and score as cTie1. -/
noncomputable def cTie2 : Product := ⟨2, "p2", "t2", 10, [3/5, 4/5]⟩

/-- Candidate discovered third, embedding [1, 0], score 1. -/
noncomputable def cTop : Product := ⟨3, "p3", "t3", 10, [1, 0]⟩

/-- Unit product used by several witnesses: embedding [1], score 1
against the query [1]. -/
noncomputable def pUnit : Product := ⟨1, "a", "t", 10, [1]⟩

/-- Product with a nonempty embedding whose length does not match the
two-dimensional query. -/
noncomputable def pBad : Product := ⟨7, "bad", "t", 10, [1]⟩

lemma cos_tie : cosineSimilarity [3/5, 4/5] [1, 0] = 3/5 := by
  have h1 : sumSq [3/5, 4/5] = (1:ℝ) := by norm_num [sumSq]
  have h2 : sumSq [(1:ℝ), 0] = 1 := by norm_num [sumSq]
  have h3 : dotList [3/5, 4/5] [1, 0] = 3/5 := by norm_num [dotList]
  unfold cosineSimilarity
  rw [if_neg (by norm_num), h1, h2, h3, if_neg (by norm_num), Real.sqrt_one]
  norm_num

lemma cos_top : cosineSimilarity [1, 0] [1, 0] = 1 := by
  have h2 : sumSq [(1:ℝ), 0] = 1 := by norm_num [sumSq]
  have h3 : dotList [(1:ℝ), 0] [1, 0] = 1 := by norm_num [dotList]
  unfold cosineSimilarity
  rw [if_neg (by norm_num), h2, h3, if_neg (by norm_num), Real.sqrt_one]
  norm_num

lemma cos_unit : cosineSimilarity [1] [1] = 1 := by
  have h2 : sumSq [(1:ℝ)] = 1 := by norm_num [sumSq]
  have h3 : dotList [(1:ℝ)] [1] = 1 := by norm_num [dotList]
  unfold cosineSimilarity
  rw [if_neg (by norm_num), h2, h3, if_neg (by norm_num), Real.sqrt_one]
  norm_num


lemma step_tie1 : serviceScoreStep [1, 0] none cTie1 = some (cTie1, 3/5) := by
  unfold serviceScoreStep cTie1
  norm_num [priceSkip, cos_tie]

lemma step_tie2 : serviceScoreStep [1, 0] none cTie2 = some (cTie2, 3/5) := by
  unfold serviceScoreStep cTie2
  norm_num [priceSkip, cos_tie]

lemma step_top : serviceScoreStep [1, 0] none cTop = some (cTop, 1) := by
  unfold serviceScoreStep cTop
  norm_num [priceSkip, cos_top]

lemma scored_tie_eval :
    serviceScored [1, 0] none [cTie1, cTie2, cTop] =
      [(cTie1, 3/5), (cTie2, 3/5), (cTop, 1)] := by
  unfold serviceScored
  rw [List.filterMap_cons, step_tie1, List.filterMap_cons, step_tie2,
    List.filterMap_cons, step_top, List.filterMap_nil]

lemma sort_tie_eval :
    exchangeSort scoreLt [(cTie1, 3/5), (cTie2, 3/5), (cTop, 1)] =
      [(cTop, 1), (cTie2, 3/5), (cTie1, 3/5)] := by
  norm_num [exchangeSort, exchangeSortFuel, exchangeInner, scoreLt]

/-- C1 (counterexample): with query [1,0] and candidates cTie1, cTie2
(equal score 3/5, discovered in that order) followed by cTop (score 1),
the ranker returns cTie2 BEFORE cTie1 — the exchange sort reverses the
relative order of the equal-score pair, so it is not a stable sort. -/
theorem C1_counterexample :
    cosineSimilarity cTie1.Embedding [1, 0] = cosineSimilarity cTie2.Embedding [1, 0] ∧
    cTie1.PID ≠ cTie2.PID ∧
    serviceRank [1, 0] [cTie1, cTie2, cTop] 3 none = [cTop, cTie2, cTie1] := by
  refine ⟨by simp [cTie1, cTie2], by simp [cTie1, cTie2], ?_⟩
  unfold serviceRank
  rw [scored_tie_eval, sort_tie_eval]
  norm_num

lemma step_unit : serviceScoreStep [1] none pUnit = some (pUnit, 1) := by
  unfold serviceScoreStep pUnit
  norm_num [priceSkip, cos_unit]

lemma scored_unit_eval : serviceScored [1] none [pUnit] = [(pUnit, 1)] := by
  unfold serviceScored
  rw [List.filterMap_cons, step_unit, List.filterMap_nil]

lemma rank_unit_eval : serviceRank [1] [pUnit] 1 none = [pUnit] := by
  unfold serviceRank
  rw [scored_unit_eval]
  norm_num [exchangeSort, exchangeSortFuel, exchangeInner]

lemma serviceRank_nonpos (q : List ℝ) (products : List Product)
    (pr : Option PriceRange) (limit : ℤ) (hle : limit ≤ 0) :
    serviceRank q products limit pr = [] := by
  unfold serviceRank
  have h1 : min limit ((exchangeSort scoreLt (serviceScored q pr products)).length : ℤ) ≤ 0 :=
    le_trans (min_le_left _ _) hle
  rw [Int.toNat_of_nonpos h1]
  simp

lemma repoRank_zero (q : List ℝ) (products : List Product) :
    repoRank q products 0 = some ([] : List Product) := by
  unfold repoRank
  have hn0 : ¬ ((exchangeSort scoreLt (repoScored q products)).length : ℤ) < 0 :=
    not_lt.mpr (Int.natCast_nonneg _)
  rw [if_neg hn0]
  norm_num

lemma repoRank_neg (q : List ℝ) (products : List Product) (limit : ℤ)
    (hneg : limit < 0) : repoRank q products limit = none := by
  unfold repoRank
  have hn : ¬ ((exchangeSort scoreLt (repoScored q products)).length : ℤ) < limit :=
    not_lt.mpr (le_trans (le_of_lt hneg) (Int.natCast_nonneg _))
  rw [if_neg hn, if_pos hneg]

/-- C3 (counterexample): limit = 0 does not fail with any error: the
service search returns a successful empty list, and so does the
data-layer ranker. -/
theorem C3_counterexample :
    serviceSearchSimilar true (.ok [[1]]) (.ok [pUnit]) 0 none =
      .ok ([] : List Product) ∧
    repoRank [1] [pUnit] 0 = some ([] : List Product) := by
  constructor
  · unfold serviceSearchSimilar
    rw [if_neg (by simp)]
    dsimp only
    rw [serviceRank_nonpos [1] [pUnit] none 0 le_rfl]
  · exact repoRank_zero [1] [pUnit]

/-- C3 (amended): `limit <= 0` never produces an InvalidLimit error (no
such error exists in the code): the service ranker returns a successful
empty result for every non-positive limit; the data-layer ranker returns
a successful empty result for limit = 0 and panics (make with negative
length, modelled as None) for negative limits. -/
theorem C3_amended (limit : ℤ) (hle : limit ≤ 0) :
    (∀ (q : List ℝ) (products : List Product) (pr : Option PriceRange),
      serviceRank q products limit pr = []) ∧
    (∀ (q : List ℝ) (products : List Product),
      repoRank q products 0 = some ([] : List Product)) ∧
    (∀ (q : List ℝ) (products : List Product), limit < 0 →
      repoRank q products limit = none) :=
  ⟨fun q products pr => serviceRank_nonpos q products pr limit hle,
   fun q products => repoRank_zero q products,
   fun q products hneg => repoRank_neg q products limit hneg⟩

/-- Witness for C3 (amended) at limit = -1. -/
theorem C3_witness :
    serviceRank [1] [pUnit] (-1) none = [] ∧
    repoRank [1] [pUnit] (-1) = none :=
  ⟨(C3_amended (-1) (by norm_num)).1 [1] [pUnit] none,
   (C3_amended (-1) (by norm_num)).2.2 [1] [pUnit] (by norm_num)⟩

/-- Witness for C4 at a concrete call returning [pUnit]. -/
theorem C4_witness :
    (0.3 : ℝ) < cosineSimilarity pUnit.Embedding [1] ∧
    (serviceRank [1] [pUnit] 1 none).length ≤ (1 : ℤ).toNat := by
  have h := C4_rank_floor_and_bounds [1] [pUnit] 1 none (by norm_num)
  exact ⟨h.1 pUnit (by rw [rank_unit_eval]; simp), h.2.1⟩

lemma step_bad : serviceScoreStep [1, 0] none pBad = none := by
  have hz : cosineSimilarity [1] [1, 0] = 0 :=
    cosineSimilarity_guard _ _ (by simp)
  unfold serviceScoreStep pBad
  norm_num [priceSkip, hz]

/-- C5 (counterexample): the service ranker DOES score a product whose
nonempty embedding length differs from the query vector: pBad passes the
service skip checks, is assigned cosine score 0, and is then removed by
the 0.3 floor — contradicting "never assigned a score of zero and
filtered".  (It still never reaches the result.) -/
theorem C5_counterexample :
    serviceScoresCandidate none pBad = true ∧
    pBad.Embedding.length ≠ ([1, 0] : List ℝ).length ∧
    cosineSimilarity pBad.Embedding [1, 0] = 0 ∧
    serviceRank [1, 0] [pBad] 5 none = [] := by
  refine ⟨by simp [serviceScoresCandidate, pBad, priceSkip], by simp [pBad], ?_, ?_⟩
  · exact cosineSimilarity_guard _ _ (by simp [pBad])
  · unfold serviceRank
    have hsc : serviceScored [1, 0] none [pBad] = [] := by
      unfold serviceScored
      rw [List.filterMap_cons, step_bad, List.filterMap_nil]
    rw [hsc]
    simp [exchangeSort, exchangeSortFuel]

/-- Witness for C5 (amended) at a concrete call returning [pUnit]. -/
theorem C5_witness :
    pUnit.Embedding ≠ [] ∧ pUnit.Embedding.length = ([1] : List ℝ).length :=
  (C5_amended [1] [pUnit] 1 none).1 pUnit (by rw [rank_unit_eval]; simp)

/-- One choice's message content in a chat completion response. -/
structure ChatMessage where
  Content : String

/-- A chat completion response: its list of choices. -/
structure ChatResponse where
  Choices : List ChatMessage

/-- Outcome of a Go call that may also panic at runtime (index out of
range / make with negative length): ok value, returned error, or panic. -/
inductive GoResult (α : Type) where
  | ok : α → GoResult α
  | err : SvcErr → GoResult α
  | panic : GoResult α

/-- The final loop of RAGSearch: walk the parsed PID list in order, break
once `limit` products are collected, resolve each PID against the store
and silently skip the ones that do not resolve. -/
def collectByPid (get : String → Option Product) (limit : ℤ) :
    List String → List Product → List Product
  | [], acc => acc
  | pid :: rest, acc =>
    if limit ≤ (acc.length : ℤ) then acc
    else
      match get pid with
      | some p => collectByPid get limit rest (acc ++ [p])
      | none => collectByPid get limit rest acc

/-- EmbeddingService.RAGSearch with the completion call, the JSON parse
and the PID store as oracles.  choices[0] is read without a guard, so a
successful response with an empty choices list is a runtime panic; a
negative slice bound in products[:min(limit, len)] would panic too. -/
noncomputable def ragSearch (configured : Bool)
    (embedResp : Except Unit (List (List ℝ)))
    (listResp : Except Unit (List Product))
    (completion : Except Unit ChatResponse)
    (parse : String → Option (List String))
    (getByPID : String → Option Product)
    (limit : ℤ) : GoResult (List Product) :=
  if configured = false then .err .notConfigured
  else
    match serviceSearchSimilar configured embedResp listResp (limit * 2) none with
    | .error e => .err e
    | .ok pool =>
      if pool.length = 0 then .ok pool
      else
        match completion with
        | .error _ =>
          if min limit (pool.length : ℤ) < 0 then .panic
          else .ok (pool.take (min limit (pool.length : ℤ)).toNat)
        | .ok resp =>
          match resp.Choices with
          | [] => .panic
          | c :: _ =>
            match parse c.Content with
            | none =>
              if min limit (pool.length : ℤ) < 0 then .panic
              else .ok (pool.take (min limit (pool.length : ℤ)).toNat)
            | some pids => .ok (collectByPid getByPID limit pids [])

lemma take_int_min (l : List α) (k : ℤ) :
    l.take (min k (l.length : ℤ)).toNat = l.take k.toNat := by
  rcases le_total k (l.length : ℤ) with h | h
  · rw [min_eq_left h]
  · rw [min_eq_right h]
    have h1 : ((l.length : ℤ)).toNat = l.length := Int.toNat_natCast _
    have h2 : l.length ≤ k.toNat := by omega
    rw [h1, List.take_length, List.take_of_length_le h2]

lemma collectByPid_eq (get : String → Option Product) (limit : ℤ) :
    ∀ (pids : List String) (acc : List Product), (acc.length : ℤ) ≤ limit →
      collectByPid get limit pids acc =
        acc ++ (pids.filterMap get).take (limit - acc.length).toNat := by
  intro pids
  induction pids with
  | nil => intro acc h; simp [collectByPid]
  | cons pid rest ih =>
    intro acc h
    unfold collectByPid
    by_cases hbreak : limit ≤ (acc.length : ℤ)
    · rw [if_pos hbreak]
      have h0 : (limit - (acc.length : ℤ)).toNat = 0 := by omega
      rw [h0]
      simp
    · rw [if_neg hbreak]
      cases hget : get pid with
      | some p =>
        dsimp only
        rw [ih (acc ++ [p]) (by simp; omega)]
        rw [List.filterMap_cons, hget]
        have hsucc : (limit - (acc.length : ℤ)).toNat =
            (limit - ((acc ++ [p]).length : ℤ)).toNat + 1 := by
          simp
          omega
        rw [hsucc, List.take_succ_cons]
        simp
      | none =>
        dsimp only
        rw [ih acc (le_of_lt (lt_of_not_le hbreak))]
        rw [List.filterMap_cons, hget]

/-- C2: whenever the chat-completion call fails, or its first choice's
content fails to parse as a JSON string array, RAGSearch returns the
first `limit` entries of the vector-only pool (the doubled-limit
similarity ranking), with no error propagated. -/
theorem C2_rag_fallback (embedResp : Except Unit (List (List ℝ)))
    (listResp : Except Unit (List Product))
    (completion : Except Unit ChatResponse)
    (parse : String → Option (List String))
    (getByPID : String → Option Product)
    (limit : ℤ) (pool : List Product)
    (hpool : serviceSearchSimilar true embedResp listResp (limit * 2) none = .ok pool)
    (hpos : 0 < limit)
    (hfail : completion = .error () ∨
      ∃ c cs, completion = .ok ⟨c :: cs⟩ ∧ parse c.Content = none) :
    ragSearch true embedResp listResp completion parse getByPID limit =
      .ok (pool.take limit.toNat) := by
  unfold ragSearch
  rw [if_neg (by simp), hpool]
  by_cases hempty : pool.length = 0
  · have hnil : pool = [] := List.length_eq_zero.mp hempty
    subst hnil
    simp
  · have hmin : ¬ (min limit (pool.length : ℤ) < 0) := by
      have := le_min (le_of_lt hpos) (Int.natCast_nonneg pool.length)
      omega
    dsimp only
    rw [if_neg hempty]
    rcases hfail with hc | ⟨c, cs, hc, hparse⟩
    · subst hc
      dsimp only
      rw [if_neg hmin, take_int_min]
    · subst hc
      dsimp only
      rw [hparse, if_neg hmin, take_int_min]

/-- C6: when the completion succeeds with a nonempty choices list whose
first content parses as a PID array, RAGSearch returns the PIDs resolved
in array order, skipping unresolved ones, truncated to `limit`. -/
theorem C6_rag_rerank_order (embedResp : Except Unit (List (List ℝ)))
    (listResp : Except Unit (List Product))
    (parse : String → Option (List String))
    (getByPID : String → Option Product)
    (limit : ℤ) (pool : List Product) (c : ChatMessage) (cs : List ChatMessage)
    (pids : List String)
    (hpool : serviceSearchSimilar true embedResp listResp (limit * 2) none = .ok pool)
    (hpos : 0 < limit)
    (hne : pool ≠ [])
    (hparse : parse c.Content = some pids) :
    ragSearch true embedResp listResp (.ok ⟨c :: cs⟩) parse getByPID limit =
      .ok ((pids.filterMap getByPID).take limit.toNat) := by
  unfold ragSearch
  rw [if_neg (by simp), hpool]
  dsimp only
  rw [if_neg (by simpa using hne), hparse]
  dsimp only
  congr 1
  rw [collectByPid_eq getByPID limit pids [] (by simpa using le_of_lt hpos)]
  simp

/-- C10: a successful completion carrying an empty choices list makes
RAGSearch panic (index out of range on choices[0]) instead of taking the
vector-only fallback. -/
theorem C10_empty_choices_panics (embedResp : Except Unit (List (List ℝ)))
    (listResp : Except Unit (List Product))
    (parse : String → Option (List String))
    (getByPID : String → Option Product)
    (limit : ℤ) (pool : List Product)
    (hpool : serviceSearchSimilar true embedResp listResp (limit * 2) none = .ok pool)
    (hne : pool ≠ []) :
    ragSearch true embedResp listResp (.ok ⟨[]⟩) parse getByPID limit = .panic := by
  unfold ragSearch
  rw [if_neg (by simp), hpool]
  dsimp only
  rw [if_neg (by simpa using hne)]

lemma pool_unit_eval :
    serviceSearchSimilar true (.ok [[1]]) (.ok [pUnit]) 2 none = .ok [pUnit] := by
  unfold serviceSearchSimilar
  rw [if_neg (by simp)]
  dsimp only
  congr 1
  unfold serviceRank
  rw [scored_unit_eval]
  norm_num [exchangeSort, exchangeSortFuel, exchangeInner]

/-- Witness for C2: with a failing completion call the orchestrator
returns the vector pool truncated to the limit. -/
theorem C2_witness :
    ragSearch true (.ok [[1]]) (.ok [pUnit]) (.error ())
      (fun _ => none) (fun _ => none) 1 = .ok [pUnit] := by
  have h := C2_rag_fallback (.ok [[1]]) (.ok [pUnit]) (.error ())
    (fun _ => none) (fun _ => none) 1 [pUnit] pool_unit_eval (by norm_num)
    (Or.inl rfl)
  simpa using h

/-- Witness for C6: PID list ["a", "b"], where only "a" resolves. -/
theorem C6_witness :
    ragSearch true (.ok [[1]]) (.ok [pUnit]) (.ok ⟨[⟨"x"⟩]⟩)
      (fun _ => some ["a", "b"])
      (fun s => if s = "a" then some pUnit else none) 1 = .ok [pUnit] := by
  have h := C6_rag_rerank_order (.ok [[1]]) (.ok [pUnit])
    (fun _ => some ["a", "b"]) (fun s => if s = "a" then some pUnit else none)
    1 [pUnit] ⟨"x"⟩ [] ["a", "b"] pool_unit_eval (by norm_num) (by simp) rfl
  simpa using h

/-- Witness for C10: empty choices list at a concrete call. -/
theorem C10_witness :
    ragSearch true (.ok [[1]]) (.ok [pUnit]) (.ok ⟨[]⟩)
      (fun _ => none) (fun _ => none) 1 = .panic :=
  C10_empty_choices_panics (.ok [[1]]) (.ok [pUnit]) (fun _ => none)
    (fun _ => none) 1 [pUnit] pool_unit_eval (by simp)

/-- Observable events of the batch embedding job's per-product loop. -/
inductive BatchEvent where
  | callEmbed (id : ℤ)
  | sleep100
deriving DecidableEq

/-- The per-product loop of ProductUsecase.GenerateAllEmbeddings (the
same shape appears in GenerateEmbeddingsForMissing and in
EmbeddingService.GenerateAllEmbeddings): skip products that already carry
an embedding; call the embedding client; on error log and `continue` —
which skips the sleep — and on success record the vector and sleep
100 ms.  `success` is the oracle telling whether the client call for a
given product id succeeds. -/
def processPage (success : ℤ → Bool) : List Product → List BatchEvent
  | [] => []
  | p :: rest =>
    if 0 < p.Embedding.length then processPage success rest
    else if success p.ID then
      .callEmbed p.ID :: .sleep100 :: processPage success rest
    else
      .callEmbed p.ID :: processPage success rest

/-- Product with no embedding yet, used by the batch-job theorems. -/
def pNoEmb : Product := ⟨1, "n", "t", 10, []⟩

/-- C7 (counterexample): when the embedding call for a product fails, the
job does NOT wait the 100 ms delay: the `continue` in the error branch
skips the sleep, so the trace of a page with one failing product contains
no sleep event at all. -/
theorem C7_counterexample :
    processPage (fun _ => false) [pNoEmb] = [BatchEvent.callEmbed 1] ∧
    BatchEvent.sleep100 ∉ processPage (fun _ => false) [pNoEmb] := by
  constructor
  · rfl
  · decide

/-- C7 (amended): the job sleeps 100 ms exactly once after each
SUCCESSFUL embedding call; failed calls skip the delay.  The trace is the
concatenation of per-product traces: nothing for an already-embedded
product, call-then-sleep for a success, a bare call for a failure. -/
theorem C7_amended (success : ℤ → Bool) (ps : List Product) :
    List.count BatchEvent.sleep100 (processPage success ps) =
      (ps.filter (fun p => (p.Embedding.length == 0) && success p.ID)).length ∧
    processPage success ps =
      ps.flatMap (fun p =>
        if 0 < p.Embedding.length then []
        else if success p.ID then [BatchEvent.callEmbed p.ID, BatchEvent.sleep100]
        else [BatchEvent.callEmbed p.ID]) := by
  constructor
  · induction ps with
    | nil => simp [processPage]
    | cons p rest ih =>
      by_cases h1 : 0 < p.Embedding.length
      · have hne : (p.Embedding.length == 0) = false :=
          beq_eq_false_iff_ne.mpr (Nat.pos_iff_ne_zero.mp h1)
        simp [processPage, h1, hne, ih]
      · have he : (p.Embedding.length == 0) = true :=
          beq_iff_eq.mpr (by omega)
        by_cases h2 : success p.ID
        · simp [processPage, h1, he, h2, ih, List.count_cons]
        · simp [processPage, h1, he, h2, ih, List.count_cons]
  · induction ps with
    | nil => simp [processPage]
    | cons p rest ih =>
      by_cases h1 : 0 < p.Embedding.length
      · simp [processPage, h1, ih]
      · by_cases h2 : success p.ID
        · simp [processPage, h1, h2, ih]
        · simp [processPage, h1, h2, ih]

/-- Pages fetched by the page loop of the service-layer batch job
(EmbeddingService.GenerateAllEmbeddings): fetch the page, process it,
and break when it holds fewer products than the page size. -/
def svcVisited (fetch : ℕ → List Product) (batchSize : ℤ) :
    ℕ → ℕ → List ℕ
  | 0, _ => []
  | fuel + 1, page =>
    if ((fetch page).length : ℤ) < batchSize then [page]
    else page :: svcVisited fetch batchSize fuel (page + 1)

/-- Pages fetched by the page loop of the biz-layer batch job
(ProductUsecase.GenerateAllEmbeddings): it breaks ONLY on a zero-length
page, then processes and moves to the next page. -/
def ucVisited (fetch : ℕ → List Product) : ℕ → ℕ → List ℕ
  | 0, _ => []
  | fuel + 1, page =>
    if (fetch page).length = 0 then [page]
    else page :: ucVisited fetch fuel (page + 1)

/-- Page oracle with a single page (page 1) holding one product. -/
def fetchShort : ℕ → List Product := fun n => if n = 1 then [pNoEmb] else []

/-- C8 (counterexample): with batchSize = 2 and page 1 holding a single
product (a short but nonempty page), the biz-layer job does NOT stop at
the short page: it fetches page 2 as well, stopping only at the empty
page. -/
theorem C8_counterexample :
    ((fetchShort 1).length : ℤ) < 2 ∧ (fetchShort 1).length ≠ 0 ∧
    ucVisited fetchShort 10 1 = [1, 2] := by
  refine ⟨by decide, by decide, ?_⟩
  rfl

lemma svcVisited_stops (fetch : ℕ → List Product) (batchSize : ℤ) :
    ∀ (m start fuel : ℕ),
      (∀ k, k < m → ¬ (((fetch (start + k)).length : ℤ) < batchSize)) →
      ((fetch (start + m)).length : ℤ) < batchSize → m < fuel →
      svcVisited fetch batchSize fuel start =
        (List.range (m + 1)).map (fun k => start + k) := by
  intro m
  induction m with
  | zero =>
    intro start fuel _ hstop hfuel
    cases fuel with
    | zero => omega
    | succ f =>
      simp only [svcVisited]
      rw [if_pos (by simpa using hstop)]
      norm_num [List.range_succ]
  | succ m ih =>
    intro start fuel hm hstop hfuel
    cases fuel with
    | zero => omega
    | succ f =>
      have hnot : ¬ ((fetch start).length : ℤ) < batchSize := by
        simpa using hm 0 (Nat.succ_pos m)
      simp only [svcVisited]
      rw [if_neg hnot]
      rw [ih (start + 1) f ?ha ?hb ?hc]
      case ha =>
        intro k hk
        have := hm (k + 1) (by omega)
        simpa [Nat.add_assoc, Nat.add_comm, Nat.add_left_comm] using this
      case hb =>
        have := hstop
        simpa [Nat.add_assoc, Nat.add_comm, Nat.add_left_comm] using this
      case hc => omega
      have hfun : (fun k => start + k) ∘ Nat.succ = fun k => (start + 1) + k := by
        funext k
        simp [Function.comp]
        omega
      conv_rhs => rw [List.range_succ_eq_map, List.map_cons, List.map_map]
      rw [hfun]
      norm_num

lemma ucVisited_stops (fetch : ℕ → List Product) :
    ∀ (m start fuel : ℕ),
      (∀ k, k < m → (fetch (start + k)).length ≠ 0) →
      (fetch (start + m)).length = 0 → m < fuel →
      ucVisited fetch fuel start =
        (List.range (m + 1)).map (fun k => start + k) := by
  intro m
  induction m with
  | zero =>
    intro start fuel _ hstop hfuel
    cases fuel with
    | zero => omega
    | succ f =>
      simp only [ucVisited]
      rw [if_pos (by simpa using hstop)]
      norm_num [List.range_succ]
  | succ m ih =>
    intro start fuel hm hstop hfuel
    cases fuel with
    | zero => omega
    | succ f =>
      have hnot : ¬ (fetch start).length = 0 := by
        simpa using hm 0 (Nat.succ_pos m)
      simp only [ucVisited]
      rw [if_neg hnot]
      rw [ih (start + 1) f ?ha ?hb ?hc]
      case ha =>
        intro k hk
        have := hm (k + 1) (by omega)
        simpa [Nat.add_assoc, Nat.add_comm, Nat.add_left_comm] using this
      case hb =>
        have := hstop
        simpa [Nat.add_assoc, Nat.add_comm, Nat.add_left_comm] using this
      case hc => omega
      have hfun : (fun k => start + k) ∘ Nat.succ = fun k => (start + 1) + k := by
        funext k
        simp [Function.comp]
        omega
      conv_rhs => rw [List.range_succ_eq_map, List.map_cons, List.map_map]
      rw [hfun]
      norm_num

/-- C8 (amended): the service-layer page loop stops exactly at the first
fetched page with fewer products than batchSize; the biz-layer page loop
stops only at the first zero-length page — it does continue past a short
but nonempty page. -/
theorem C8_amended (fetch : ℕ → List Product) (batchSize : ℤ) :
    (∀ (start m fuel : ℕ),
      (∀ k, k < m → ¬ (((fetch (start + k)).length : ℤ) < batchSize)) →
      ((fetch (start + m)).length : ℤ) < batchSize → m < fuel →
      svcVisited fetch batchSize fuel start =
        (List.range (m + 1)).map (fun k => start + k)) ∧
    (∀ (start m fuel : ℕ),
      (∀ k, k < m → (fetch (start + k)).length ≠ 0) →
      (fetch (start + m)).length = 0 → m < fuel →
      ucVisited fetch fuel start =
        (List.range (m + 1)).map (fun k => start + k)) :=
  ⟨fun start m fuel hm hstop hfuel => svcVisited_stops fetch batchSize m start fuel hm hstop hfuel,
   fun start m fuel hm hstop hfuel => ucVisited_stops fetch m start fuel hm hstop hfuel⟩

/-- Page oracle with pages 1 and 2 holding one product each. -/
def fetchThree : ℕ → List Product := fun n => if n ≤ 2 then [pNoEmb] else []

/-- Witness for C8 (amended): with batchSize 1 both loops stop at the
first empty page 3, having visited pages 1, 2 and 3. -/
theorem C8_witness :
    svcVisited fetchThree 1 10 1 = [1, 2, 3] ∧
    ucVisited fetchThree 10 1 = [1, 2, 3] := by
  have h := C8_amended fetchThree 1
  have h1 := h.1 1 2 10 (by decide) (by decide) (by decide)
  have h2 := h.2 1 2 10 (by decide) (by decide) (by decide)
  constructor
  · rw [h1]
    rfl
  · rw [h2]
    rfl
